import Mathlib

/-!
Verification of the braid-design-system theme token compiler
(`src/lib/themes/makeBraidTheme.ts`), the documentation type extractor
(`src/unnamed/part_000`), and the `Rating` component assertion
(`src/lib/components/Rating/Rating.tsx`), as a shallow embedding in Lean.

Colors: the helpers `isLight`, `darken`, `lighten` and `getLightVariant`
come from `polished` and from `../utils`, which are outside the embedded
sources.  Following the specification they are modelled on perceptual
lightness alone: a color is represented by its lightness, a rational in
the interval `[0, 1]`.

JavaScript objects are modelled as association lists from `String` keys,
with `List.lookup` playing the role of property access (`none` stands for
`undefined`); object spread is modelled by `jsSpread`.  Exceptions are
modelled with `Except String`.
-/

namespace Braid

/-- Modelled from the spec: a color is identified with its perceptual
lightness, measured in integer percentage points (`0` = black, `100` =
white).  The helpers `isLight`, `darken`, `lighten`, `getLightVariant`
live outside `src/` (`polished` and `../utils`), so they are modelled
from the spec's words. -/
abbrev Color := ℤ

/-- Modelled from the spec: the fixed perceptual lightness threshold used
by `isLight` to classify colors as light or dark (50 percent). -/
def lightnessThreshold : ℤ := 50

/-- Modelled from the spec: a color is perceptually light when its
lightness is above the fixed threshold. -/
def isLight (c : Color) : Bool := lightnessThreshold < c

/-- Modelled from the spec: `darken(amount, color)` lowers the lightness
by `amount` percentage points, clamped at black. -/
def darken (amount : ℤ) (c : Color) : Color := max 0 (c - amount)

/-- Modelled from the spec: `lighten(amount, color)` raises the lightness
by `amount` percentage points, clamped at white. -/
def lighten (amount : ℤ) (c : Color) : Color := min 100 (c + amount)

/-- Modelled from the spec: `getLightVariant` produces a lightened variant
of the base color, parameterized only by the base color. -/
def getLightVariant (c : Color) : Color := lighten 30 c

/-- Embeds `getActiveColor` from `decorateTokens` in `makeBraidTheme.ts`:
light colors are darkened by 10 percent, dark colors by 5 percent. -/
def getActiveColor (x : Color) : Color :=
  if isLight x then darken 10 x else darken 5 x

/-- Embeds `getHoverColor` from `decorateTokens` in `makeBraidTheme.ts`:
light colors are darkened by 5 percent, dark colors lightened by 5 percent. -/
def getHoverColor (x : Color) : Color :=
  if isLight x then darken 5 x else lighten 5 x

/-- Prefix test on code-point lists: `listStartsWith s p` holds when `s`
begins with `p`.  Models JavaScript `String.prototype.startsWith` and the
anchored regex test `/^.../.test(...)`, structurally so that the kernel
can evaluate it. -/
def listStartsWith : List Char → List Char → Bool
  | _, [] => true
  | [], _ :: _ => false
  | a :: as, b :: bs => a = b && listStartsWith as bs

/-- String version of `listStartsWith`. -/
def strStartsWith (s pre : String) : Bool := listStartsWith s.data pre.data

/-- The `color.background` section of a token tree, as a JavaScript object:
an association list from background names to colors. -/
abbrev Background := List (String × Color)

/-- Property access `bg[name]` where the source's static types guarantee the
key is present; `0` is an arbitrary default that the theorems never rely on. -/
def lookupD (bg : Background) (k : String) : Color := (bg.lookup k).getD 0

/-- JavaScript object spread `\x7b...base, ...adds\x7d`: keys of `base` keep
their position and receive the value from `adds` when present there, and keys
of `adds` that are absent from `base` are appended in order.  (The adds lists
used in this development have pairwise distinct keys.) -/
def jsSpread (base adds : List (String × Color)) : List (String × Color) :=
  base.map (fun p => (p.1, (adds.lookup p.1).getD p.2)) ++
    adds.filter (fun p => (base.lookup p.1).isNone)

/-- The `font-weight` table `typography.fontWeight` of a token tree
(`Record<FontWeight, number>` with keys `regular`, `medium`, `strong`). -/
structure FontWeights where
  regular : Nat
  medium : Nat
  strong : Nat
deriving DecidableEq

/-- The claim-relevant slice of `typography` in `TreatTokens`. -/
structure TypographyM where
  webFont : Option String
  fontWeight : FontWeights
deriving DecidableEq

/-- The claim-relevant slice of a `TreatTokens` token tree: theme `name`,
`displayName`, typography (web font and weight table) and the background
color palette. -/
structure TreatTokensM where
  name : String
  displayName : String
  typography : TypographyM
  background : Background
deriving DecidableEq

/-- The twelve derived background entries of `decorateTokens`, in source
order. -/
def backgroundAdds (bg : Background) : List (String × Color) :=
  [("formAccentActive", getActiveColor (lookupD bg "formAccent")),
   ("formAccentHover", getHoverColor (lookupD bg "formAccent")),
   ("brandAccentActive", getActiveColor (lookupD bg "brandAccent")),
   ("brandAccentHover", getHoverColor (lookupD bg "brandAccent")),
   ("criticalActive", getActiveColor (lookupD bg "critical")),
   ("criticalHover", getHoverColor (lookupD bg "critical")),
   ("infoLight", getLightVariant (lookupD bg "info")),
   ("promoteLight", getLightVariant (lookupD bg "promote")),
   ("criticalLight", getLightVariant (lookupD bg "critical")),
   ("positiveLight", getLightVariant (lookupD bg "positive")),
   ("cautionLight", getLightVariant (lookupD bg "caution")),
   ("neutralLight", getLightVariant (lookupD bg "neutral"))]

/-- Embeds `decorateTokens`' background derivation: the twelve derived
entries spread on top of the original background palette. -/
def decorateBackground (bg : Background) : Background :=
  jsSpread bg (backgroundAdds bg)

/-- Embeds `decorateTokens` (restricted to the claim-relevant fields: the
typography normalization to cap height does not touch `webFont` or
`fontWeight`, and the `utils` closure is consumed elsewhere). -/
def decorateTokens (t : TreatTokensM) : TreatTokensM :=
  { t with background := decorateBackground t.background }

/-- Lexicographic comparison of character sequences by code point, the
order JavaScript string comparison uses (UTF-16 code units and code
points agree on the ASCII digits produced by `Nat.repr`). -/
def charListLe : List Char → List Char → Bool
  | [], _ => true
  | _ :: _, [] => false
  | a :: as, b :: bs =>
      if a.toNat < b.toNat then true
      else if b.toNat < a.toNat then false
      else charListLe as bs

/-- JavaScript default `Array.prototype.sort` comparison: elements are
compared as strings. -/
def jsNumLe (x y : Nat) : Bool := charListLe (Nat.repr x).data (Nat.repr y).data

/-- Insertion step of the model of JavaScript `Array.prototype.sort`. -/
def jsSortInsert (x : Nat) : List Nat → List Nat
  | [] => [x]
  | y :: ys => if jsNumLe x y then x :: y :: ys else y :: jsSortInsert x ys

/-- Model of JavaScript `Array.prototype.sort` with the default (string)
comparator.  Ties are equal numbers, so stability is immaterial and
insertion sort produces exactly the JavaScript result. -/
def jsSort : List Nat → List Nat
  | [] => []
  | x :: xs => jsSortInsert x (jsSort xs)

/-- Hexadecimal digit, uppercase, as emitted by `encodeURIComponent`. -/
def hexDigitChar (n : Nat) : Char :=
  if n < 10 then Char.ofNat (48 + n) else Char.ofNat (55 + n)

/-- Percent-encoding of one byte. -/
def percentByte (b : Nat) : String :=
  "%" ++ (hexDigitChar (b / 16)).toString ++ (hexDigitChar (b % 16)).toString

/-- UTF-8 bytes of a Unicode code point. -/
def utf8Bytes (n : Nat) : List Nat :=
  if n < 128 then [n]
  else if n < 2048 then [192 + n / 64, 128 + n % 64]
  else if n < 65536 then [224 + n / 4096, 128 + (n / 64) % 64, 128 + n % 64]
  else [240 + n / 262144, 128 + (n / 4096) % 64, 128 + (n / 64) % 64, 128 + n % 64]

/-- Characters that `encodeURIComponent` leaves unescaped. -/
def isUnreservedChar (c : Char) : Bool :=
  c.isAlpha || c.isDigit || c == '-' || c == '_' || c == '.' ||
    c == '!' || c == '~' || c == '*' || c.toNat == 39 || c == '(' || c == ')'

/-- Model of JavaScript `encodeURIComponent`. -/
def encodeURIComponent (s : String) : String :=
  s.data.foldl
    (fun acc c =>
      acc ++ (if isUnreservedChar c then c.toString
              else String.join ((utf8Bytes c.toNat).map percentByte)))
    ""

/-- One stylesheet link descriptor produced by `makeWebFonts`. -/
structure WebFontLink where
  linkTag : String
deriving DecidableEq

/-- The link tag built by `makeWebFonts` for a font `name` and a list of
weights (joined with `,` as JavaScript `Array.prototype.join` does). -/
def mkLinkTag (name : String) (ws : List Nat) : WebFontLink :=
  { linkTag :=
      "<link href=\"https://fonts.googleapis.com/css?family=" ++
        encodeURIComponent (name ++ ":" ++ String.intercalate "," (ws.map Nat.repr)) ++
        "\" rel=\"stylesheet\" />" }

/-- Embeds `makeWebFonts` from `makeBraidTheme.ts`: empty list when no web
font is configured, otherwise a single link tag over
`values(tokens.typography.fontWeight)` (key order `regular`, `medium`,
`strong`) sorted by the JavaScript default comparator. -/
def makeWebFonts (t : TreatTokensM) : List WebFontLink :=
  match t.typography.webFont with
  | none => []
  | some name =>
      [mkLinkTag name
        (jsSort [t.typography.fontWeight.regular,
                 t.typography.fontWeight.medium,
                 t.typography.fontWeight.strong])]

/-- Embeds the `referenceColorMap` constant of `makeRuntimeTokens`: hover
and active variants of `brandAccent` and `formAccent` are classified by
their base color.  (Note that the `critical` variants are absent.) -/
def referenceColorMap : List (String × String) :=
  [("brandAccentActive", "brandAccent"),
   ("brandAccentHover", "brandAccent"),
   ("formAccentActive", "formAccent"),
   ("formAccentHover", "formAccent")]

/-- Embeds the body of the `mapValues` callback in `makeRuntimeTokens`:
classification of one background entry, with the `jobsDb` manual override,
the reference-color indirection, and the error on an unresolvable
reference (`undefined` is `none`). -/
def classifyEntry (themeName : String) (full : Background)
    (name : String) (background : Color) : Except String String :=
  if themeName = "jobsDb" && strStartsWith name "brandAccent" then
    Except.ok "dark"
  else
    match
      (match referenceColorMap.lookup name with
       | some base => full.lookup base
       | none => some background) with
    | none =>
        Except.error
          ("Error resolving background lightness for background \"" ++
            toString background ++ "\" in \"" ++ themeName ++ "\" theme.")
    | some referenceColor =>
        Except.ok (if isLight referenceColor then "light" else "dark")

/-- Embeds `mapValues(tokens.color.background, ...)` in `makeRuntimeTokens`:
entries are classified in order and the first failure propagates as the
thrown error. -/
def mapValuesClassify (themeName : String) (full : Background) :
    List (String × Color) → Except String (List (String × String))
  | [] => Except.ok []
  | (n, c) :: rest =>
      match classifyEntry themeName full n c with
      | Except.error e => Except.error e
      | Except.ok v =>
          match mapValuesClassify themeName full rest with
          | Except.error e => Except.error e
          | Except.ok r => Except.ok ((n, v) :: r)

/-- The claim-relevant slice of the runtime tokens built by
`makeRuntimeTokens` (`space`, `breakpoint` and `color` are verbatim copies
of token-tree fields and are not involved in any claim). -/
structure RuntimeTokens where
  name : String
  displayName : String
  background : Color
  webFonts : List WebFontLink
  backgroundLightness : List (String × String)

/-- Embeds `makeRuntimeTokens` from `makeBraidTheme.ts`.  A thrown error
during the `backgroundLightness` computation aborts the whole call, so the
result is `Except`-valued. -/
def makeRuntimeTokens (t : TreatTokensM) : Except String RuntimeTokens :=
  match mapValuesClassify t.name t.background t.background with
  | Except.error e => Except.error e
  | Except.ok bl =>
      Except.ok
        { name := t.name
          displayName := t.displayName
          background := lookupD t.background "body"
          webFonts := makeWebFonts t
          backgroundLightness := bl }

/-- Embeds `makeBraidTheme` (without the opaque `createTheme` call, which
belongs to the external styling engine): runtime tokens of the decorated
token tree. -/
def makeBraidTheme (t : TreatTokensM) : Except String RuntimeTokens :=
  makeRuntimeTokens (decorateTokens t)

/-- The `backgroundLightness` entry for key `k` of the theme built from
`t`, or `none` when theme construction throws or the key is absent. -/
def blLookup (t : TreatTokensM) (k : String) : Option String :=
  match makeBraidTheme t with
  | Except.ok rt => rt.backgroundLightness.lookup k
  | Except.error _ => none

/-!
Type doc extractor (`src/unnamed/part_000`).  The TypeScript checker's
semantic model is embedded as a graph: type identifiers are natural
numbers and a `TypeEnv` assigns to each identifier the observations the
extractor makes of a `ts.Type` (display string, alias symbol, union
members, class-or-interface flag, properties).  Cyclic and infinitely
expanding types are representable, so the termination of `normaliseType`
rests on the depth bound alone, exactly as in the source.
-/

/-- The `MAX_DEPTH` constant of the extractor. -/
def MAX_DEPTH : Nat := 10

/-- The `aliasWhitelist` constant of the extractor. -/
def aliasWhitelist : List String := ["ResponsiveProp"]

/-- The `propBlacklist` constant of the extractor. -/
def propBlacklist : List String := ["key"]

/-- The keys of the `stringAliases` record; each key maps to itself. -/
def stringAliasKeys : List String :=
  ["boolean", "CSSProperties",
   "string | number | boolean | ClassDictionary | ClassArray"]

/-- Lookup in the `stringAliases` record (each key maps to itself, and all
values are non-empty strings, so JavaScript truthiness of the lookup
coincides with key membership). -/
def stringAliasLookup (s : String) : Option String :=
  if s ∈ stringAliasKeys then some s else none

/-- The six member display strings that collapse to `ReactNode`. -/
def reactNodeSignature : List String :=
  ["string", "number", "false", "true", "\x7b\x7d",
   "ReactElement<any, string | JSXElementConstructor<any>>"]

/-- The four member display strings that collapse to `ReactNodeNoStrings`. -/
def reactNodeNoStringsSignature : List String :=
  ["false", "true",
   "ReactElement<any, string | JSXElementConstructor<any>>",
   "ReactNodeArray"]

/-- Observations of one property symbol of a class-or-interface type:
name, optionality flag, JSDoc tags, documentation comment, the type
resolved at the props object's declaration with nullability stripped
(`getNonNullableType`), and the display string of the type at the
property's own declaration (used for the alias-whitelist check). -/
structure TsPropInfo where
  name : String
  optional : Bool
  tags : List (String × String)
  docComment : String
  nonNullableTypeId : Nat
  typeAliasString : String

/-- Observations the extractor makes of one `ts.Type`. -/
structure TsTypeInfo where
  display : String
  aliasSymbol : Option String
  aliasTypeArguments : Option (List Nat)
  unionMembers : Option (List Nat)
  isClassOrInterface : Bool
  properties : List TsPropInfo

/-- The checker's type table: a (possibly cyclic) graph of types. -/
abbrev TypeEnv := Nat → TsTypeInfo

mutual
/-- The normalized doc tree (`NormalisedPropType` in the source): a raw
display string, a union, a preserved parameterized alias, or a nested
interface. -/
inductive NormalisedPropType where
  | str : String → NormalisedPropType
  | union : List NormalisedPropType → NormalisedPropType
  | aliasNode : String → List NormalisedPropType → NormalisedPropType
  | interfaceNode : NormalisedInterface → NormalisedPropType

/-- A normalized interface (`\x7btype: 'interface', props\x7d` in the
source); properties are kept in source order, keyed by name. -/
inductive NormalisedInterface where
  | mk : List (String × NormalisedProp) → NormalisedInterface

/-- One normalized property entry. -/
inductive NormalisedProp where
  | mk : (propName : String) → (required : Bool) → (type : NormalisedPropType) →
      (deprecated : Bool) → (tags : List (String × String)) →
      (description : String) → NormalisedProp
end

mutual
/-- Embeds `normaliseType` from the extractor.  Branch order follows the
source: passthrough string aliases, the depth bound, whitelisted
parameterized aliases (non-whitelisted aliases fall through), union
collapsing and expansion, class-or-interface recursion, raw display
string.  Every recursive call strictly increases `depth`, which is what
the termination measure tracks. -/
def normaliseType (env : TypeEnv) (t : Nat) (depth : Nat) : NormalisedPropType :=
  let info := env t
  match stringAliasLookup info.display with
  | some s => NormalisedPropType.str s
  | none =>
    if hd : MAX_DEPTH < depth then NormalisedPropType.str info.display
    else
      let aliasResult : Option NormalisedPropType :=
        match info.aliasSymbol with
        | some a =>
            if a ∈ aliasWhitelist then
              some (NormalisedPropType.aliasNode a
                (match info.aliasTypeArguments with
                 | some args => normaliseTypeList env args (depth + 1)
                 | none => []))
            else none
        | none => none
      match aliasResult with
      | some r => r
      | none =>
        match info.unionMembers with
        | some members =>
            let types := members.map (fun m => (env m).display)
            if types.take 6 = reactNodeSignature then
              NormalisedPropType.str "ReactNode"
            else if types = reactNodeNoStringsSignature then
              NormalisedPropType.str "ReactNodeNoStrings"
            else
              NormalisedPropType.union (normaliseTypeList env members (depth + 1))
        | none =>
            if info.isClassOrInterface then
              NormalisedPropType.interfaceNode
                (normalizeInterface env t (depth + 1) false)
            else NormalisedPropType.str info.display
termination_by (4 * (11 - depth) + 1, 0)
decreasing_by
  all_goals try simp only [MAX_DEPTH] at *
  all_goals try simp only [List.length_cons] at *
  all_goals first
    | (apply Prod.Lex.left; omega)
    | (apply Prod.Lex.right; omega)

/-- Maps `normaliseType` over a list of type identifiers (the `.map` calls
of the source, made explicit for the termination argument). -/
def normaliseTypeList (env : TypeEnv) (ts : List Nat) (depth : Nat) :
    List NormalisedPropType :=
  match ts with
  | [] => []
  | x :: xs => normaliseType env x depth :: normaliseTypeList env xs depth
termination_by (4 * (11 - depth) + 2, ts.length)
decreasing_by
  all_goals try simp only [MAX_DEPTH] at *
  all_goals try simp only [List.length_cons] at *
  all_goals first
    | (apply Prod.Lex.left; omega)
    | (apply Prod.Lex.right; omega)

/-- Embeds `normalizeInterface` from the extractor: blacklisted property
names are dropped and each remaining property is normalized at
`depth + 1`. -/
def normalizeInterface (env : TypeEnv) (t : Nat) (depth : Nat)
    (extractComments : Bool) : NormalisedInterface :=
  NormalisedInterface.mk
    (normalisePropList env
      ((env t).properties.filter (fun p => !(propBlacklist.contains p.name)))
      (depth + 1) extractComments)
termination_by (4 * (11 - depth) + 4, 0)
decreasing_by
  all_goals try simp only [MAX_DEPTH] at *
  all_goals try simp only [List.length_cons] at *
  all_goals first
    | (apply Prod.Lex.left; omega)
    | (apply Prod.Lex.right; omega)

/-- Normalizes the property list of an interface: tags are collected
without `see` tags, deprecation is a case-insensitive tag-name match,
whitelisted alias display strings short-circuit normalization, and the
description is extracted only when requested. -/
def normalisePropList (env : TypeEnv) (props : List TsPropInfo) (depth : Nat)
    (extractComments : Bool) : List (String × NormalisedProp) :=
  match props with
  | [] => []
  | p :: rest =>
      let tags := p.tags.filter (fun tg => tg.1 ≠ "see")
      let deprecated := tags.any (fun tg => tg.1.toLower = "deprecated")
      let description := if extractComments then p.docComment else ""
      let ty :=
        if p.typeAliasString ∈ aliasWhitelist then
          NormalisedPropType.str p.typeAliasString
        else normaliseType env p.nonNullableTypeId depth
      (p.name, NormalisedProp.mk p.name (!p.optional) ty deprecated tags description) ::
        normalisePropList env rest depth extractComments
termination_by (4 * (11 - depth) + 3, props.length)
decreasing_by
  all_goals try simp only [MAX_DEPTH] at *
  all_goals try simp only [List.length_cons] at *
  all_goals first
    | (apply Prod.Lex.left; omega)
    | (apply Prod.Lex.right; omega)
end

/-- A parameter symbol of a call signature: its name, whether it has a
value declaration, and the identifier of its type resolved at that
declaration (`getTypeOfSymbolAtLocation`). -/
structure TsParam where
  name : String
  hasValueDeclaration : Bool
  typeId : Nat
deriving DecidableEq

/-- A call signature: its parameter symbols and the identifier of its
return type. -/
structure TsSig where
  parameters : List TsParam
  returnTypeId : Nat
deriving DecidableEq

/-- An exported symbol of the entry module: `getName()`, `escapedName`,
and the call signatures of its type at its declaration. -/
structure TsExportSym where
  name : String
  escapedName : String
  callSignatures : List TsSig
deriving DecidableEq

/-- Embeds `getComponentPropsType` from the extractor: the signature loop,
skipping zero-parameter signatures with `continue`, returning the first
parameter of a signature whose first parameter is named `props` or which
has exactly one parameter, and moving on to the NEXT signature otherwise. -/
def getComponentPropsType : List TsSig → Option TsParam
  | [] => none
  | sig :: rest =>
      match sig.parameters with
      | [] => getComponentPropsType rest
      | p :: ps =>
          if p.name = "props" || ps.isEmpty then some p
          else getComponentPropsType rest

/-- Written from the claim's words (for comparison with
`getComponentPropsType`): resolve the props parameter from the first call
signature that exposes at least one parameter, and only from within that
signature; no later signature is consulted. -/
def getComponentPropsTypeSpec (sigs : List TsSig) : Option TsParam :=
  match sigs.find? (fun s => !s.parameters.isEmpty) with
  | none => none
  | some s =>
      match s.parameters with
      | [] => none
      | p :: ps => if p.name = "props" || ps.isEmpty then some p else none

/-- A signature from which `getComponentPropsType` actually resolves a
parameter: non-empty, and either the first parameter is named `props` or
it is the only parameter. -/
def usableSig (s : TsSig) : Bool :=
  match s.parameters with
  | [] => false
  | p :: ps => p.name = "props" || ps.isEmpty

/-- The two shapes of value returned by `getComponentDocs` in the source:
the documented `ComponentDoc` shape `\x7bexportType: 'component', props\x7d`,
and the bare `\x7btype: 'interface', props: \x7b\x7d\x7d` object returned
on the no-props-parameter path, which lacks the `exportType` tag. -/
inductive ComponentDocsResult where
  | bareInterface : NormalisedInterface → ComponentDocsResult
  | componentDoc : NormalisedInterface → ComponentDocsResult

/-- Embeds `getComponentDocs` from the extractor, keeping the two result
shapes distinct exactly as the source builds them. -/
def getComponentDocs (env : TypeEnv) (exp : TsExportSym) : ComponentDocsResult :=
  match getComponentPropsType exp.callSignatures with
  | none => ComponentDocsResult.bareInterface (NormalisedInterface.mk [])
  | some propsObj =>
      if propsObj.hasValueDeclaration then
        ComponentDocsResult.componentDoc
          (normalizeInterface env propsObj.typeId 0 true)
      else ComponentDocsResult.bareInterface (NormalisedInterface.mk [])

/-- A `HookDoc` (`\x7bexportType: 'hook', params, returnType\x7d`). -/
structure HookDocM where
  params : List NormalisedPropType
  returnType : NormalisedPropType

/-- Embeds `getHookDocs` from the extractor.  `getCallSignatures()[0]` on
a type with no call signatures yields `undefined` and the subsequent
`.getParameters()` access throws, which the embedding reports as an
error. -/
def getHookDocs (env : TypeEnv) (exp : TsExportSym) : Except String HookDocM :=
  match exp.callSignatures with
  | [] =>
      Except.error "TypeError: cannot read getParameters of undefined"
  | sig :: _ =>
      Except.ok
        { params := sig.parameters.map (fun p => normaliseType env p.typeId 0)
          returnType := normaliseType env sig.returnTypeId 0 }

/-- One value of the extractor's result mapping: either of the two
component shapes, or a hook doc. -/
inductive DocEntry where
  | ofComponent : ComponentDocsResult → DocEntry
  | ofHook : HookDocM → DocEntry

/-- The body of the `try` block of the extractor's export loop: exports
whose name starts with `use` are documented as hooks, all others as
components. -/
def docForExport (env : TypeEnv) (e : TsExportSym) : Except String DocEntry :=
  if strStartsWith e.name "use" then (getHookDocs env e).map DocEntry.ofHook
  else Except.ok (DocEntry.ofComponent (getComponentDocs env e))

/-- Embeds the export loop of the extractor's default export: each export
is documented inside `try`; a throwing export is logged by name (second
component) and contributes nothing to the mapping (first component), and
the loop continues.  Export names of a module are pairwise distinct, so
the `Object.assign` merge is the association list built here. -/
def extractDocs (env : TypeEnv) : List TsExportSym → List (String × DocEntry) × List String
  | [] => ([], [])
  | e :: rest =>
      let r := extractDocs env rest
      match docForExport env e with
      | Except.ok d => ((e.escapedName, d) :: r.1, r.2)
      | Except.error _ => (r.1, e.escapedName :: r.2)

/-!
The `Rating` component's assertion (`src/lib/components/Rating/Rating.tsx`):
`assert(!rating || (rating >= 0 && rating <= 5), ...)`.  JavaScript numbers
are modelled exactly as far as the assertion observes them: a rational
value, or one of the non-finite values `NaN`, `Infinity`, `-Infinity`.
-/

/-- A JavaScript number as observed by comparison and truthiness:
`NaN`, the infinities, or a finite (here rational) value. -/
inductive JsNum where
  | nan : JsNum
  | posInf : JsNum
  | negInf : JsNum
  | num : ℚ → JsNum
deriving DecidableEq

/-- JavaScript truthiness of a number: `NaN` and `0` are falsy. -/
def jsTruthy : JsNum → Bool
  | JsNum.nan => false
  | JsNum.posInf => true
  | JsNum.negInf => true
  | JsNum.num q => decide (q ≠ 0)

/-- JavaScript `<=` on numbers: any comparison with `NaN` is false. -/
def jsLe : JsNum → JsNum → Bool
  | JsNum.nan, _ => false
  | _, JsNum.nan => false
  | JsNum.negInf, _ => true
  | _, JsNum.posInf => true
  | JsNum.posInf, _ => false
  | _, JsNum.negInf => false
  | JsNum.num a, JsNum.num b => decide (a ≤ b)

/-- JavaScript `>=` on numbers. -/
def jsGe (a b : JsNum) : Bool := jsLe b a

/-- Embeds the `Rating` assertion condition
`!rating || (rating >= 0 && rating <= 5)`: the assertion raises exactly
when this is `false`. -/
def ratingAssertPasses (rating : JsNum) : Bool :=
  !(jsTruthy rating) || (jsGe rating (JsNum.num 0) && jsLe rating (JsNum.num 5))

/-- Written from the claim's words: membership of the rating in the
interval `[0, 5]` (false for `NaN`, which is not in the interval). -/
def ratingInRange (rating : JsNum) : Bool :=
  jsGe rating (JsNum.num 0) && jsLe rating (JsNum.num 5)

/-- The two call signatures refuting C4: the first has two parameters with
the first not named `props`, the second has exactly one parameter. -/
def sigsC4 : List TsSig :=
  [{ parameters := [{ name := "x", hasValueDeclaration := true, typeId := 0 },
                    { name := "y", hasValueDeclaration := true, typeId := 0 }],
     returnTypeId := 0 },
   { parameters := [{ name := "z", hasValueDeclaration := true, typeId := 0 }],
     returnTypeId := 0 }]

/-- A type table in which every identifier is a featureless `any` type. -/
def envTrivial : TypeEnv := fun _ =>
  { display := "any", aliasSymbol := none, aliasTypeArguments := none,
    unionMembers := none, isClassOrInterface := false, properties := [] }

/-- An export classified as a component whose type has no call signatures,
so no props parameter can be resolved. -/
def expNoProps : TsExportSym :=
  { name := "Example", escapedName := "Example", callSignatures := [] }

/-- A cyclic type table whose single type is simultaneously a union over
itself and an interface, with the passthrough display string `boolean`. -/
def envBoolCyclic : TypeEnv := fun _ =>
  { display := "boolean", aliasSymbol := none, aliasTypeArguments := none,
    unionMembers := some [0], isClassOrInterface := true, properties := [] }

/-- A cyclic type table: the single type is a union over itself, so naive
recursion without the depth bound would never terminate. -/
def envSelfLoop : TypeEnv := fun _ =>
  { display := "SelfRef", aliasSymbol := none, aliasTypeArguments := none,
    unionMembers := some [0, 0], isClassOrInterface := true, properties := [] }

/-- Numeric ascending insertion, for the claim-written sort. -/
def natSortInsert (x : Nat) : List Nat → List Nat
  | [] => [x]
  | y :: ys => if x ≤ y then x :: y :: ys else y :: natSortInsert x ys

/-- Numeric ascending sort, written from the claim's words. -/
def natSort : List Nat → List Nat
  | [] => []
  | x :: xs => natSortInsert x (natSort xs)

/-- Removes adjacent duplicates of a sorted list, written from the
claim's words (deduplication). -/
def dedupSorted : List Nat → List Nat
  | [] => []
  | [x] => [x]
  | x :: y :: rest =>
      if x = y then dedupSorted (y :: rest) else x :: dedupSorted (y :: rest)

/-- The declared font weights, in the `values` order of the font-weight
table (`regular`, `medium`, `strong`). -/
def declaredWeights (t : TreatTokensM) : List Nat :=
  [t.typography.fontWeight.regular, t.typography.fontWeight.medium,
   t.typography.fontWeight.strong]

/-- Written from the claim's words (for comparison with `makeWebFonts`):
one link descriptor whose weight list is the declared weights sorted
ascending numerically and deduplicated. -/
def makeWebFontsSpec (t : TreatTokensM) : List WebFontLink :=
  match t.typography.webFont with
  | none => []
  | some name => [mkLinkTag name (dedupSorted (natSort (declaredWeights t)))]

/-- A token tree with a web font and a duplicated declared weight. -/
def tokWebFonts : TreatTokensM :=
  { name := "docs"
    displayName := "Docs"
    typography := { webFont := some "Roboto"
                    fontWeight := { regular := 500, medium := 500, strong := 700 } }
    background := [] }

/-- Whether an `Except` value is a success (JavaScript: the computation
did not throw). -/
def exceptOk {ε α : Type} : Except ε α → Bool
  | Except.ok _ => true
  | Except.error _ => false

/-- An export documented successfully as a component (no call signatures,
so it takes the empty-interface path without touching the type table). -/
def expOkA : TsExportSym :=
  { name := "Alpha", escapedName := "Alpha", callSignatures := [] }

/-- An export classified as a hook (name starts with `use`) whose type has
no call signatures, so `getCallSignatures()[0]` is `undefined` and hook
documentation throws. -/
def expBadHook : TsExportSym :=
  { name := "useThing", escapedName := "useThing", callSignatures := [] }

/-- A second export documented successfully as a component. -/
def expOkC : TsExportSym :=
  { name := "Gamma", escapedName := "Gamma", callSignatures := [] }

/-- Three exports of which the second throws during documentation. -/
def exportsC7 : List TsExportSym := [expOkA, expBadHook, expOkC]

/-- Every reference made during background-lightness classification of
`bg` (for a theme named `themeName`) resolves: for each entry that is not
short-circuited by the `jobsDb` override and whose name is mapped by
`referenceColorMap`, the base background it references is present. -/
def referencesResolved (themeName : String) (bg : Background) : Prop :=
  ∀ p, p ∈ bg →
    ¬(themeName = "jobsDb" ∧ strStartsWith p.1 "brandAccent" = true) →
    ∀ base, referenceColorMap.lookup p.1 = some base →
      (bg.lookup base).isSome = true

/-- A token tree whose `critical` background sits just below the lightness
threshold, so that lightening it by 5 percent crosses the threshold. -/
def tokThemeC1 : TreatTokensM :=
  { name := "seekAnz"
    displayName := "Seek ANZ"
    typography := { webFont := none
                    fontWeight := { regular := 400, medium := 500, strong := 700 } }
    background :=
      [("body", 100), ("brand", 60), ("input", 100), ("brandAccent", 70),
       ("formAccent", 70), ("critical", 48), ("info", 60),
       ("promote", 60), ("caution", 80), ("positive", 60),
       ("neutral", 40)] }

/-- C6: `getActiveColor` and `getHoverColor` are plain functions of the
input color (determinism is inherent in the embedding).  On a perceptually
light color (valid lightness in `[0, 1]`) the active variant is darkened by
exactly 10 percent and the hover variant by exactly 5 percent, both
genuinely darker; on a dark color the active variant is darkened by
exactly 5 percent and the hover variant lightened by exactly 5 percent,
genuinely lighter.  The clamps of `darken`/`lighten` never bite in the
stated cases, so the transforms are exact arithmetic. -/
theorem c6_color_transforms (c : Color) (h0 : 0 ≤ c) (h1 : c ≤ 100) :
    (isLight c = true →
      getActiveColor c = c - 10 ∧ getHoverColor c = c - 5 ∧
        getActiveColor c < c ∧ getHoverColor c < c) ∧
    (isLight c = false →
      getActiveColor c = darken 5 c ∧ getActiveColor c ≤ c ∧
        getHoverColor c = c + 5 ∧ c < getHoverColor c) := by
  constructor
  · intro hl
    have hc : lightnessThreshold < c := by simpa [isLight] using hl
    rw [lightnessThreshold] at hc
    have e1 : getActiveColor c = c - 10 := by
      rw [getActiveColor, if_pos hl, darken]
      exact max_eq_right (by linarith)
    have e2 : getHoverColor c = c - 5 := by
      rw [getHoverColor, if_pos hl, darken]
      exact max_eq_right (by linarith)
    exact ⟨e1, e2, by rw [e1]; linarith, by rw [e2]; linarith⟩
  · intro hl
    have hc : ¬ lightnessThreshold < c := by simpa [isLight] using hl
    rw [lightnessThreshold] at hc
    have hc' : c ≤ 50 := not_lt.mp hc
    have e1 : getActiveColor c = darken 5 c := by
      rw [getActiveColor, if_neg (by simp [hl])]
    have e2 : getHoverColor c = c + 5 := by
      rw [getHoverColor, if_neg (by simp [hl]), lighten]
      exact min_eq_right (by linarith)
    refine ⟨e1, ?_, e2, by rw [e2]; linarith⟩
    rw [e1, darken]
    exact max_le h0 (by linarith)

/-- Witness for C6 at the concrete light color of lightness `90`. -/
theorem c6_color_transforms_witness :
    (0 : ℤ) ≤ 90 ∧ (90 : ℤ) ≤ 100 ∧
      ((isLight 90 = true →
        getActiveColor 90 = 90 - 10 ∧
          getHoverColor 90 = 90 - 5 ∧
          getActiveColor 90 < 90 ∧ getHoverColor 90 < 90) ∧
      (isLight 90 = false →
        getActiveColor 90 = darken 5 90 ∧
          getActiveColor 90 ≤ 90 ∧
          getHoverColor 90 = 90 + 5 ∧
          (90 : Color) < getHoverColor 90)) :=
  ⟨by norm_num, by norm_num,
    c6_color_transforms 90 (by norm_num) (by norm_num)⟩

/-- C10 counterexample: a `NaN` rating is not in `[0, 5]`, yet the
assertion condition evaluates to `true` (no raise), because `!rating`
short-circuits on the falsy `NaN`. -/
theorem c10_counterexample :
    ratingAssertPasses JsNum.nan = true ∧ ratingInRange JsNum.nan = false := by
  exact ⟨rfl, rfl⟩

/-- C10 amended: for every rating other than `NaN` (including the
infinities and every finite value), the assertion raises exactly when the
rating lies outside `[0, 5]`; the `NaN` case slips through the falsy
short-circuit of `!rating`. -/
theorem c10_assert_range (r : JsNum) (h : r ≠ JsNum.nan) :
    (ratingAssertPasses r = true ↔ ratingInRange r = true) := by
  cases r with
  | nan => exact absurd rfl h
  | posInf => decide
  | negInf => decide
  | num q =>
      by_cases hq : q = 0
      · subst hq; decide
      · have ht : jsTruthy (JsNum.num q) = true := by simp [jsTruthy, hq]
        simp [ratingAssertPasses, ratingInRange, ht]

/-- Witness for C10 at the concrete out-of-range rating `6`. -/
theorem c10_assert_range_witness :
    JsNum.num 6 ≠ JsNum.nan ∧
      (ratingAssertPasses (JsNum.num 6) = true ↔
        ratingInRange (JsNum.num 6) = true) :=
  ⟨by decide, c10_assert_range (JsNum.num 6) (by decide)⟩


/-- C4 counterexample: the source keeps scanning later call signatures
when the first non-empty signature has several parameters and its first
parameter is not named `props`; here it resolves `z` from the second
signature, whereas the claim's resolution (first non-empty signature
only) yields nothing. -/
theorem c4_counterexample :
    getComponentPropsType sigsC4 ≠ getComponentPropsTypeSpec sigsC4 := by
  decide

/-- C4 amended: the props parameter is the first parameter of the first
call signature that is usable (non-empty and with its first parameter
named `props`, or with exactly one parameter); signatures that are
non-empty but not usable are skipped and later signatures are consulted. -/
theorem c4_first_usable_signature (sigs : List TsSig) :
    getComponentPropsType sigs =
      (sigs.find? usableSig).bind (fun s => s.parameters.head?) := by
  induction sigs with
  | nil => rfl
  | cons sig rest ih =>
      rcases hps : sig.parameters with _ | ⟨p, ps⟩
      · simp [getComponentPropsType, hps, usableSig, List.find?, ih]
      · by_cases hcond : (p.name = "props" || ps.isEmpty) = true
        · simp [getComponentPropsType, hps, usableSig, List.find?, hcond]
        · simp [getComponentPropsType, hps, usableSig, List.find?,
            Bool.eq_false_iff.mpr hcond, ih]


/-- C5: on the no-props-parameter path, `getComponentDocs` returns the
bare `\x7btype: 'interface', props: \x7b\x7d\x7d` object, which is NOT the
documented `ComponentDoc` shape: it carries no `exportType: 'component'`
tag.  The second conjunct records that the two shapes are distinct, so
the result entry is a differently-shaped value than the claim requires. -/
theorem c5_bare_interface_shape :
    getComponentDocs envTrivial expNoProps =
        ComponentDocsResult.bareInterface (NormalisedInterface.mk []) ∧
      ∀ p, ComponentDocsResult.bareInterface (NormalisedInterface.mk []) ≠
        ComponentDocsResult.componentDoc p := by
  refine ⟨rfl, fun p h => ?_⟩
  exact ComponentDocsResult.noConfusion h

/-- C9: a type whose display string is one of the passthrough string
aliases is returned verbatim at every recursion depth, before the depth
check and before any alias, union or interface expansion. -/
theorem c9_passthrough (env : TypeEnv) (t depth : Nat)
    (h : (env t).display ∈ stringAliasKeys) :
    normaliseType env t depth = NormalisedPropType.str (env t).display := by
  rw [normaliseType]
  simp [stringAliasLookup, h]


/-- Witness for C9 on a cyclic union type at depth `99`, far past the
maximum depth. -/
theorem c9_passthrough_witness :
    (envBoolCyclic 0).display ∈ stringAliasKeys ∧
      normaliseType envBoolCyclic 0 99 =
        NormalisedPropType.str (envBoolCyclic 0).display :=
  ⟨by decide, c9_passthrough envBoolCyclic 0 99 (by decide)⟩

/-- C3: `normaliseType` is a total function (its very definition carries
the termination argument: every recursive call strictly increases `depth`,
and past the bound no call recurses, even on cyclic type graphs).  At any
depth beyond `MAX_DEPTH`, on a type whose display string is not a
passthrough alias, it returns the raw display string without recursing
into aliases, unions or interfaces. -/
theorem c3_depth_fallback (env : TypeEnv) (t depth : Nat)
    (hdepth : MAX_DEPTH < depth)
    (halias : stringAliasLookup (env t).display = none) :
    normaliseType env t depth = NormalisedPropType.str (env t).display := by
  rw [normaliseType]
  simp [halias, hdepth]


/-- Witness for C3 on a cyclic union type at depth `11`, one past the
maximum. -/
theorem c3_depth_fallback_witness :
    MAX_DEPTH < 11 ∧ stringAliasLookup (envSelfLoop 0).display = none ∧
      normaliseType envSelfLoop 0 11 = NormalisedPropType.str "SelfRef" :=
  ⟨by decide, by decide, c3_depth_fallback envSelfLoop 0 11 (by decide) (by decide)⟩

/-- Lexicographic code-point comparison is transitive. -/
theorem charListLe_trans (a : List Char) : ∀ b c : List Char,
    charListLe a b = true → charListLe b c = true → charListLe a c = true := by
  induction a with
  | nil => intro b c _ _; rfl
  | cons x as ih =>
      intro b c h1 h2
      cases b with
      | nil => simp [charListLe] at h1
      | cons y bs =>
          cases c with
          | nil => simp [charListLe] at h2
          | cons z cs =>
              rw [charListLe] at h1 h2 ⊢
              by_cases hxy : x.toNat < y.toNat
              · by_cases hyz : y.toNat < z.toNat
                · rw [if_pos (show x.toNat < z.toNat by omega)]
                · by_cases hzy : z.toNat < y.toNat
                  · rw [if_neg hyz, if_pos hzy] at h2
                    exact absurd h2 (by simp)
                  · rw [if_pos (show x.toNat < z.toNat by omega)]
              · by_cases hyx : y.toNat < x.toNat
                · rw [if_neg hxy, if_pos hyx] at h1
                  exact absurd h1 (by simp)
                · rw [if_neg hxy, if_neg hyx] at h1
                  by_cases hyz : y.toNat < z.toNat
                  · rw [if_pos (show x.toNat < z.toNat by omega)]
                  · by_cases hzy : z.toNat < y.toNat
                    · rw [if_neg hyz, if_pos hzy] at h2
                      exact absurd h2 (by simp)
                    · rw [if_neg hyz, if_neg hzy] at h2
                      rw [if_neg (show ¬x.toNat < z.toNat by omega),
                        if_neg (show ¬z.toNat < x.toNat by omega)]
                      exact ih bs cs h1 h2

/-- Lexicographic code-point comparison is total. -/
theorem charListLe_total (a : List Char) : ∀ b : List Char,
    charListLe a b = true ∨ charListLe b a = true := by
  induction a with
  | nil => intro b; exact Or.inl rfl
  | cons x as ih =>
      intro b
      cases b with
      | nil => exact Or.inr rfl
      | cons y bs =>
          rw [charListLe, charListLe]
          by_cases hxy : x.toNat < y.toNat
          · exact Or.inl (by rw [if_pos hxy])
          · by_cases hyx : y.toNat < x.toNat
            · exact Or.inr (by rw [if_pos hyx])
            · rw [if_neg hxy, if_neg hyx, if_neg hyx, if_neg hxy]
              exact ih bs

/-- The JavaScript default comparator is transitive. -/
theorem jsNumLe_trans {a b c : Nat} (h1 : jsNumLe a b = true)
    (h2 : jsNumLe b c = true) : jsNumLe a c = true := by
  rw [jsNumLe] at h1 h2 ⊢
  exact charListLe_trans _ _ _ h1 h2

/-- The JavaScript default comparator is total. -/
theorem jsNumLe_total (x y : Nat) : jsNumLe x y = true ∨ jsNumLe y x = true := by
  rw [jsNumLe, jsNumLe]
  exact charListLe_total _ _

/-- Insertion preserves the multiset of elements. -/
theorem jsSortInsert_perm (x : Nat) (l : List Nat) :
    (jsSortInsert x l).Perm (x :: l) := by
  induction l with
  | nil => exact List.Perm.refl _
  | cons y ys ih =>
      rw [jsSortInsert]
      by_cases h : jsNumLe x y = true
      · rw [if_pos h]
      · rw [if_neg h]
        exact (ih.cons y).trans (List.Perm.swap x y ys)

/-- The modelled JavaScript sort permutes its input: in particular it
keeps duplicates. -/
theorem jsSort_perm (l : List Nat) : (jsSort l).Perm l := by
  induction l with
  | nil => exact List.Perm.refl _
  | cons x xs ih =>
      rw [jsSort]
      exact (jsSortInsert_perm x (jsSort xs)).trans (ih.cons x)

/-- Insertion preserves sortedness for the JavaScript comparator. -/
theorem jsSortInsert_sorted (x : Nat) (l : List Nat)
    (h : l.Pairwise (fun a b => jsNumLe a b = true)) :
    (jsSortInsert x l).Pairwise (fun a b => jsNumLe a b = true) := by
  induction l with
  | nil => simp [jsSortInsert]
  | cons y ys ih =>
      rw [jsSortInsert]
      rcases List.pairwise_cons.mp h with ⟨hy, hys⟩
      by_cases hxy : jsNumLe x y = true
      · rw [if_pos hxy]
        refine List.pairwise_cons.mpr ⟨?_, h⟩
        intro b hb
        rcases List.mem_cons.mp hb with rfl | hb2
        · exact hxy
        · exact jsNumLe_trans hxy (hy b hb2)
      · rw [if_neg hxy]
        refine List.pairwise_cons.mpr ⟨?_, ih hys⟩
        intro b hb
        have hb' := (jsSortInsert_perm x ys).mem_iff.mp hb
        rcases List.mem_cons.mp hb' with rfl | hb2
        · rcases jsNumLe_total y b with hyb | hby
          · exact hyb
          · exact absurd hby hxy
        · exact hy b hb2

/-- The modelled JavaScript sort orders its output by the string
comparator (lexicographically over decimal representations). -/
theorem jsSort_sorted (l : List Nat) :
    (jsSort l).Pairwise (fun a b => jsNumLe a b = true) := by
  induction l with
  | nil => simp [jsSort]
  | cons x xs ih =>
      rw [jsSort]
      exact jsSortInsert_sorted x (jsSort xs) ih

/-- C2 counterexample: with declared weights `500, 500, 700` the source
emits the weight string `500,500,700` (duplicates retained), not the
deduplicated `500,700` that the claim requires, so `makeWebFonts`
disagrees with the claim-written `makeWebFontsSpec`. -/
theorem c2_counterexample :
    makeWebFonts tokWebFonts ≠ makeWebFontsSpec tokWebFonts := by
  decide

/-- C2 amended: with no web-font name `makeWebFonts` yields the empty
list; with a name it yields exactly one link descriptor whose weight list
is a permutation of the declared weights (so duplicates are retained, not
deduplicated) ordered by the JavaScript default string comparator (not
numerically). -/
theorem c2_webfonts (t : TreatTokensM) :
    (t.typography.webFont = none → makeWebFonts t = []) ∧
    (∀ name, t.typography.webFont = some name →
      ∃ ws, makeWebFonts t = [mkLinkTag name ws] ∧
        ws.Perm (declaredWeights t) ∧
        ws.Pairwise (fun a b => jsNumLe a b = true)) := by
  constructor
  · intro h
    simp [makeWebFonts, h]
  · intro name h
    refine ⟨jsSort (declaredWeights t), ?_, jsSort_perm _, jsSort_sorted _⟩
    simp [makeWebFonts, h, declaredWeights]

/-- Witness for C2 at a token tree with web font `Roboto` and declared
weights `500, 500, 700`. -/
theorem c2_webfonts_witness :
    tokWebFonts.typography.webFont = some "Roboto" ∧
      ∃ ws, makeWebFonts tokWebFonts = [mkLinkTag "Roboto" ws] ∧
        ws.Perm (declaredWeights tokWebFonts) ∧
        ws.Pairwise (fun a b => jsNumLe a b = true) :=
  ⟨rfl, (c2_webfonts tokWebFonts).2 "Roboto" rfl⟩

/-- Membership in the extractor's result mapping characterizes exactly
the successfully documented exports. -/
theorem extractDocs_mem (env : TypeEnv) (exports : List TsExportSym)
    (n : String) (d : DocEntry) :
    (n, d) ∈ (extractDocs env exports).1 ↔
      ∃ e, e ∈ exports ∧ e.escapedName = n ∧ docForExport env e = Except.ok d := by
  induction exports with
  | nil => simp [extractDocs]
  | cons e rest ih =>
      cases hd : docForExport env e with
      | ok d0 =>
          simp only [extractDocs, hd]
          constructor
          · intro hm
            rcases List.mem_cons.mp hm with heq | hm2
            · injection heq with hn hdv
              exact ⟨e, List.mem_cons_self e rest, hn.symm,
                by rw [hd, hdv]⟩
            · rcases ih.mp hm2 with ⟨e', he', hn, hdoc⟩
              exact ⟨e', List.mem_cons_of_mem e he', hn, hdoc⟩
          · rintro ⟨e', he', hn, hdoc⟩
            rcases List.mem_cons.mp he' with rfl | he2
            · rw [hd] at hdoc
              have hdv := Except.ok.inj hdoc
              exact List.mem_cons.mpr (Or.inl (by rw [← hn, ← hdv]))
            · exact List.mem_cons.mpr (Or.inr (ih.mpr ⟨e', he2, hn, hdoc⟩))
      | error msg =>
          simp only [extractDocs, hd]
          constructor
          · intro hm
            rcases ih.mp hm with ⟨e', he', hn, hdoc⟩
            exact ⟨e', List.mem_cons_of_mem e he', hn, hdoc⟩
          · rintro ⟨e', he', hn, hdoc⟩
            rcases List.mem_cons.mp he' with rfl | he2
            · rw [hd] at hdoc
              exact Except.noConfusion hdoc
            · exact ih.mpr ⟨e', he2, hn, hdoc⟩

/-- The extractor's log lists precisely the failing exports, by name, in
order. -/
theorem extractDocs_logs (env : TypeEnv) (exports : List TsExportSym) :
    (extractDocs env exports).2 =
      (exports.filter (fun e => !(exceptOk (docForExport env e)))).map
        TsExportSym.escapedName := by
  induction exports with
  | nil => rfl
  | cons e rest ih =>
      cases hd : docForExport env e with
      | ok d0 => simp [extractDocs, hd, exceptOk, List.filter_cons, ih]
      | error msg => simp [extractDocs, hd, exceptOk, List.filter_cons, ih]

/-- C7: when one export throws during documentation, the result mapping
contains exactly the successfully documented exports, each under its own
name; the failing export is logged by name; and (given that module export
names are pairwise distinct) no entry for the failing export appears in
the mapping.  The extraction itself is a total function, so one bad
export never aborts the pass. -/
theorem c7_export_isolation (env : TypeEnv) (exports : List TsExportSym)
    (hnd : (exports.map TsExportSym.escapedName).Nodup) :
    (∀ n d, (n, d) ∈ (extractDocs env exports).1 ↔
        ∃ e, e ∈ exports ∧ e.escapedName = n ∧ docForExport env e = Except.ok d) ∧
    ((extractDocs env exports).2 =
      (exports.filter (fun e => !(exceptOk (docForExport env e)))).map
        TsExportSym.escapedName) ∧
    (∀ e, e ∈ exports → exceptOk (docForExport env e) = false →
      ∀ d, (e.escapedName, d) ∉ (extractDocs env exports).1) := by
  refine ⟨fun n d => extractDocs_mem env exports n d,
    extractDocs_logs env exports, ?_⟩
  intro e he hfail d hm
  rcases (extractDocs_mem env exports e.escapedName d).mp hm with ⟨e', he', hn, hdoc⟩
  have hee : e' = e := List.inj_on_of_nodup_map hnd he' he hn
  rw [← hee, hdoc] at hfail
  simp [exceptOk] at hfail

/-- Witness for C7 on three exports of which exactly the second (a hook
with no call signatures) throws. -/
theorem c7_export_isolation_witness :
    (exportsC7.map TsExportSym.escapedName).Nodup ∧
      (extractDocs envTrivial exportsC7).1.map Prod.fst = ["Alpha", "Gamma"] ∧
      (extractDocs envTrivial exportsC7).2 = ["useThing"] ∧
      (∀ d, ("useThing", d) ∉ (extractDocs envTrivial exportsC7).1) :=
  ⟨by decide, rfl, rfl,
    fun d =>
      (c7_export_isolation envTrivial exportsC7 (by decide)).2.2 expBadHook
        (by decide) rfl d⟩

/-- Classification of one background entry succeeds exactly when the
reference it makes (if any, and unless short-circuited by the `jobsDb`
override) resolves to a present background color. -/
theorem classifyEntry_ok_iff (tm : String) (full : Background) (n : String) (c : Color) :
    exceptOk (classifyEntry tm full n c) = true ↔
      (¬(tm = "jobsDb" ∧ strStartsWith n "brandAccent" = true) →
        ∀ base, referenceColorMap.lookup n = some base →
          (full.lookup base).isSome = true) := by
  rw [classifyEntry]
  by_cases hov : (tm = "jobsDb" && strStartsWith n "brandAccent") = true
  · rw [if_pos hov]
    simp only [exceptOk]
    constructor
    · intro _ hno base hbase
      rcases (show decide (tm = "jobsDb") = true ∧ strStartsWith n "brandAccent" = true by
        simpa using hov) with ⟨h1, h2⟩
      exact absurd ⟨of_decide_eq_true h1, h2⟩ hno
    · intro _; trivial
  · rw [if_neg hov]
    have hnov : ¬(tm = "jobsDb" ∧ strStartsWith n "brandAccent" = true) := by
      intro hcon
      exact hov (by simp [hcon.1, hcon.2])
    cases hlk : referenceColorMap.lookup n with
    | none =>
        simp only [hlk, exceptOk]
        constructor
        · intro _ _ base hbase
          exact Option.noConfusion hbase
        · intro _; trivial
    | some base =>
        simp only [hlk]
        cases hfull : full.lookup base with
        | none =>
            simp only [hfull, exceptOk]
            constructor
            · intro hfalse
              exact absurd hfalse (by simp)
            · intro hres
              have h := hres hnov base rfl
              rw [hfull] at h
              exact absurd h (by simp)
        | some rc =>
            simp only [hfull, exceptOk]
            constructor
            · intro _ _ base' hb
              have hbb : base = base' := Option.some.inj hb
              rw [← hbb, hfull]
              rfl
            · intro _; trivial

/-- Classification of a whole background map succeeds exactly when every
entry's reference resolves within the full map. -/
theorem mapValuesClassify_ok_iff (tm : String) (full : Background)
    (l : List (String × Color)) :
    exceptOk (mapValuesClassify tm full l) = true ↔
      ∀ p, p ∈ l →
        ¬(tm = "jobsDb" ∧ strStartsWith p.1 "brandAccent" = true) →
        ∀ base, referenceColorMap.lookup p.1 = some base →
          (full.lookup base).isSome = true := by
  induction l with
  | nil =>
      simp only [mapValuesClassify, exceptOk]
      constructor
      · intro _ p hp
        exact absurd hp (List.not_mem_nil p)
      · intro _; trivial
  | cons p rest ih =>
      rcases p with ⟨n, c⟩
      rw [mapValuesClassify]
      cases hcl : classifyEntry tm full n c with
      | error msg =>
          simp only [exceptOk]
          constructor
          · intro h
            exact absurd h (by simp)
          · intro hall
            have h1 := (classifyEntry_ok_iff tm full n c).mpr
              (fun hno base hb => hall (n, c) (List.mem_cons_self _ _) hno base hb)
            rw [hcl] at h1
            exact absurd h1 (by simp [exceptOk])
      | ok v =>
          cases hrec : mapValuesClassify tm full rest with
          | error msg2 =>
              simp only [exceptOk]
              constructor
              · intro h
                exact absurd h (by simp)
              · intro hall
                have h2 := ih.mpr (fun q hq => hall q (List.mem_cons_of_mem _ hq))
                rw [hrec] at h2
                exact absurd h2 (by simp [exceptOk])
          | ok r =>
              simp only [exceptOk]
              constructor
              · intro _ q hq
                rcases List.mem_cons.mp hq with rfl | hq2
                · exact (classifyEntry_ok_iff tm full n c).mp (by rw [hcl]; rfl)
                · exact ih.mp (by rw [hrec]; rfl) q hq2
              · intro _; trivial

/-- C8: building the runtime tokens succeeds exactly when every reference
made during the background-lightness computation resolves; an undefined
referenced color makes the whole call raise (the `Except.error` carries
no `backgroundLightness` at all, so no default classification is ever
substituted), and when every referenced color is defined the call
completes without raising. -/
theorem c8_error_iff (t : TreatTokensM) :
    exceptOk (makeRuntimeTokens t) = true ↔
      referencesResolved t.name t.background := by
  have h := mapValuesClassify_ok_iff t.name t.background t.background
  rw [referencesResolved, makeRuntimeTokens]
  cases hm : mapValuesClassify t.name t.background t.background with
  | error msg =>
      rw [hm] at h
      exact h
  | ok bl =>
      rw [hm] at h
      simpa [exceptOk] using h

/-- Association lookup distributes over append. -/
theorem lookup_append {β : Type} (k : String) (l1 l2 : List (String × β)) :
    (l1 ++ l2).lookup k =
      (match l1.lookup k with
       | some v => some v
       | none => l2.lookup k) := by
  induction l1 with
  | nil => rfl
  | cons a es ih =>
      rcases a with ⟨a1, a2⟩
      rw [List.cons_append, List.lookup, List.lookup]
      cases hk : (k == a1) with
      | true => rfl
      | false => exact ih

/-- Lookup in the overridden-base part of a spread. -/
theorem lookup_map_spread (base adds : Background) (k : String) :
    (base.map (fun p => (p.1, (adds.lookup p.1).getD p.2))).lookup k =
      (base.lookup k).map (fun c => (adds.lookup k).getD c) := by
  induction base with
  | nil => rfl
  | cons a es ih =>
      rcases a with ⟨a1, a2⟩
      rw [List.map_cons, List.lookup, List.lookup]
      cases hk : (k == a1) with
      | true =>
          have hk1 : k = a1 := by simpa using hk
          subst hk1
          rfl
      | false => exact ih

/-- Lookup in the appended part of a spread, for a key absent from the
base object. -/
theorem lookup_filter_absent (base : Background) (k : String)
    (hk : base.lookup k = none) :
    ∀ adds : Background,
      (adds.filter (fun p => (base.lookup p.1).isNone)).lookup k =
        adds.lookup k := by
  intro adds
  induction adds with
  | nil => rfl
  | cons a es ih =>
      rcases a with ⟨a1, a2⟩
      by_cases hka : (k == a1) = true
      · have hk1 : k = a1 := by simpa using hka
        subst hk1
        have hc : ((base.lookup k).isNone) = true := by rw [hk]; rfl
        rw [List.filter_cons]
        simp only [hc, if_true]
        rw [List.lookup, List.lookup, beq_self_eq_true]
      · have hka' : (k == a1) = false := by
          cases h2 : (k == a1) with
          | true => exact absurd h2 hka
          | false => rfl
        rw [List.filter_cons]
        cases hc : ((base.lookup a1).isNone) with
        | true =>
            simp only [hc, if_true]
            rw [List.lookup, hka', List.lookup, hka']
            exact ih
        | false =>
            simp only [hc, Bool.false_eq_true, if_false]
            rw [List.lookup, hka']
            exact ih

/-- A key absent from `adds` is absent from any filtering of `adds`. -/
theorem lookup_filter_of_none (base : Background) (k : String) :
    ∀ adds : Background, adds.lookup k = none →
      (adds.filter (fun p => (base.lookup p.1).isNone)).lookup k = none := by
  intro adds
  induction adds with
  | nil => intro _; rfl
  | cons a es ih =>
      rcases a with ⟨a1, a2⟩
      intro hk
      rw [List.lookup] at hk
      cases hka : (k == a1) with
      | true => rw [hka] at hk; exact Option.noConfusion hk
      | false =>
          rw [hka] at hk
          rw [List.filter_cons]
          cases hc : ((base.lookup a1).isNone) with
          | true =>
              simp only [hc, if_true]
              rw [List.lookup, hka]
              exact ih hk
          | false =>
              simp only [hc, Bool.false_eq_true, if_false]
              exact ih hk

/-- A key present in the adds of a spread reads its adds value. -/
theorem jsSpread_lookup_right (base adds : Background) (k : String) (v : Color)
    (h : adds.lookup k = some v) : (jsSpread base adds).lookup k = some v := by
  rw [jsSpread, lookup_append, lookup_map_spread]
  cases hb : base.lookup k with
  | some c => simp [h]
  | none => exact (lookup_filter_absent base k hb adds).trans h

/-- A key absent from the adds of a spread reads its base value. -/
theorem jsSpread_lookup_left (base adds : Background) (k : String)
    (h : adds.lookup k = none) : (jsSpread base adds).lookup k = base.lookup k := by
  rw [jsSpread, lookup_append, lookup_map_spread]
  cases hb : base.lookup k with
  | some c => simp [h]
  | none => exact lookup_filter_of_none base k adds h

/-- When classification of a whole map succeeds, the classification entry
for each key is the successful classification of its color. -/
theorem mapValuesClassify_lookup (tm : String) (full : Background) :
    ∀ (l : List (String × Color)) (m : List (String × String)),
      mapValuesClassify tm full l = Except.ok m →
      ∀ (k : String) (c : Color), l.lookup k = some c →
        ∃ v, classifyEntry tm full k c = Except.ok v ∧ m.lookup k = some v := by
  intro l
  induction l with
  | nil =>
      intro m _ k c hk
      exact Option.noConfusion hk
  | cons p rest ih =>
      rcases p with ⟨n, c0⟩
      intro m hm k c hk
      rw [mapValuesClassify] at hm
      cases hcl : classifyEntry tm full n c0 with
      | error msg => rw [hcl] at hm; exact Except.noConfusion hm
      | ok v0 =>
          rw [hcl] at hm
          cases hrec : mapValuesClassify tm full rest with
          | error msg => rw [hrec] at hm; exact Except.noConfusion hm
          | ok r =>
              rw [hrec] at hm
              have hm' : (n, v0) :: r = m := Except.ok.inj hm
              rw [List.lookup] at hk
              cases hkn : (k == n) with
              | true =>
                  rw [hkn] at hk
                  have hc : c0 = c := Option.some.inj hk
                  have hk2 : k = n := by simpa using hkn
                  refine ⟨v0, ?_, ?_⟩
                  · rw [hk2, ← hc]; exact hcl
                  · rw [← hm', List.lookup, hkn]
              | false =>
                  rw [hkn] at hk
                  rcases ih r hrec k c hk with ⟨v, hv1, hv2⟩
                  refine ⟨v, hv1, ?_⟩
                  rw [← hm', List.lookup, hkn]
                  exact hv2

/-- A hover or active variant and its base key receive the same
classification whenever the whole map classifies successfully, the
variant's entry is present, its base entry is present, the variant is
mapped to the base by `referenceColorMap`, the base is not itself mapped,
and variant and base agree on whether they match the `brandAccent`
prefix. -/
theorem classify_pair (tm : String) (d : Background) (m : List (String × String))
    (hm : mapValuesClassify tm d d = Except.ok m)
    (varName baseName : String) (hv bc : Color)
    (hvar : d.lookup varName = some hv)
    (hbase : d.lookup baseName = some bc)
    (hrmap : referenceColorMap.lookup varName = some baseName)
    (hrmapBase : referenceColorMap.lookup baseName = none)
    (hpre : strStartsWith varName "brandAccent" =
      strStartsWith baseName "brandAccent") :
    m.lookup varName = m.lookup baseName := by
  rcases mapValuesClassify_lookup tm d d m hm varName hv hvar with ⟨v, hcv, hlv⟩
  rcases mapValuesClassify_lookup tm d d m hm baseName bc hbase with ⟨v', hcv', hlv'⟩
  rw [classifyEntry] at hcv hcv'
  rw [hlv, hlv']
  cases hov : (tm = "jobsDb" && strStartsWith varName "brandAccent") with
  | true =>
      have hov' : (tm = "jobsDb" && strStartsWith baseName "brandAccent") = true := by
        rw [← hpre]; exact hov
      rw [if_pos hov] at hcv
      rw [if_pos hov'] at hcv'
      rw [← Except.ok.inj hcv, ← Except.ok.inj hcv']
  | false =>
      have hovb : (tm = "jobsDb" && strStartsWith baseName "brandAccent") = false := by
        rw [← hpre]; exact hov
      have hov2 : ¬((tm = "jobsDb" && strStartsWith varName "brandAccent") = true) := by
        rw [hov]; exact Bool.false_ne_true
      have hov2' : ¬((tm = "jobsDb" && strStartsWith baseName "brandAccent") = true) := by
        rw [hovb]; exact Bool.false_ne_true
      rw [if_neg hov2] at hcv
      rw [if_neg hov2'] at hcv'
      simp only [hrmap, hbase] at hcv
      simp only [hrmapBase] at hcv'
      rw [← Except.ok.inj hcv, ← Except.ok.inj hcv']

/-- C1 amended: on a token tree whose `formAccent` and `brandAccent` base
backgrounds are present (as the source's static types guarantee), the
four variants listed in `referenceColorMap` — `formAccentHover`,
`formAccentActive`, `brandAccentHover`, `brandAccentActive` — inherit
their base color's `backgroundLightness` classification.  The `critical`
variants are NOT in `referenceColorMap` and are classified by their own
computed color (see the counterexample). -/
theorem c1_variant_inheritance (t : TreatTokensM) (fa ba : Color)
    (hfa : t.background.lookup "formAccent" = some fa)
    (hba : t.background.lookup "brandAccent" = some ba) :
    blLookup t "formAccentHover" = blLookup t "formAccent" ∧
    blLookup t "formAccentActive" = blLookup t "formAccent" ∧
    blLookup t "brandAccentHover" = blLookup t "brandAccent" ∧
    blLookup t "brandAccentActive" = blLookup t "brandAccent" := by
  have hbt :
      makeBraidTheme t =
        match mapValuesClassify t.name (decorateBackground t.background)
            (decorateBackground t.background) with
        | Except.error e => Except.error e
        | Except.ok bl =>
            Except.ok
              { name := t.name
                displayName := t.displayName
                background := lookupD (decorateBackground t.background) "body"
                webFonts := makeWebFonts (decorateTokens t)
                backgroundLightness := bl } := rfl
  cases hm : mapValuesClassify t.name (decorateBackground t.background)
      (decorateBackground t.background) with
  | error msg =>
      rw [hm] at hbt
      have hnone : ∀ k, blLookup t k = none := by
        intro k
        rw [blLookup, hbt]
      simp only [hnone]
      exact ⟨trivial, trivial, trivial, trivial⟩
  | ok m =>
      rw [hm] at hbt
      have hbl : ∀ k, blLookup t k = m.lookup k := by
        intro k
        rw [blLookup, hbt]
      have hdFA : (decorateBackground t.background).lookup "formAccent" = some fa := by
        rw [decorateBackground,
          jsSpread_lookup_left t.background (backgroundAdds t.background) "formAccent" rfl]
        exact hfa
      have hdBA : (decorateBackground t.background).lookup "brandAccent" = some ba := by
        rw [decorateBackground,
          jsSpread_lookup_left t.background (backgroundAdds t.background) "brandAccent" rfl]
        exact hba
      have hdFAH : (decorateBackground t.background).lookup "formAccentHover" =
          some (getHoverColor (lookupD t.background "formAccent")) := by
        rw [decorateBackground]
        exact jsSpread_lookup_right _ _ _ _ rfl
      have hdFAA : (decorateBackground t.background).lookup "formAccentActive" =
          some (getActiveColor (lookupD t.background "formAccent")) := by
        rw [decorateBackground]
        exact jsSpread_lookup_right _ _ _ _ rfl
      have hdBAH : (decorateBackground t.background).lookup "brandAccentHover" =
          some (getHoverColor (lookupD t.background "brandAccent")) := by
        rw [decorateBackground]
        exact jsSpread_lookup_right _ _ _ _ rfl
      have hdBAA : (decorateBackground t.background).lookup "brandAccentActive" =
          some (getActiveColor (lookupD t.background "brandAccent")) := by
        rw [decorateBackground]
        exact jsSpread_lookup_right _ _ _ _ rfl
      refine ⟨?_, ?_, ?_, ?_⟩
      · rw [hbl, hbl]
        exact classify_pair t.name _ m hm "formAccentHover" "formAccent" _ fa
          hdFAH hdFA rfl rfl rfl
      · rw [hbl, hbl]
        exact classify_pair t.name _ m hm "formAccentActive" "formAccent" _ fa
          hdFAA hdFA rfl rfl rfl
      · rw [hbl, hbl]
        exact classify_pair t.name _ m hm "brandAccentHover" "brandAccent" _ ba
          hdBAH hdBA rfl rfl rfl
      · rw [hbl, hbl]
        exact classify_pair t.name _ m hm "brandAccentActive" "brandAccent" _ ba
          hdBAA hdBA rfl rfl rfl

/-- C1 counterexample: in `tokThemeC1` the `critical` background
(lightness `48`, dark) is lightened by 5 percent for `criticalHover`
(lightness `53`, light), and since `criticalHover` is absent from
`referenceColorMap` it is classified by its own color: the variant
classifies `light` while its base classifies `dark`. -/
theorem c1_counterexample :
    blLookup tokThemeC1 "criticalHover" = some "light" ∧
      blLookup tokThemeC1 "critical" = some "dark" := by
  exact ⟨rfl, rfl⟩

/-- Witness for C1 at the concrete token tree `tokThemeC1`. -/
theorem c1_variant_inheritance_witness :
    tokThemeC1.background.lookup "formAccent" = some 70 ∧
      tokThemeC1.background.lookup "brandAccent" = some 70 ∧
      (blLookup tokThemeC1 "formAccentHover" = blLookup tokThemeC1 "formAccent" ∧
        blLookup tokThemeC1 "formAccentActive" = blLookup tokThemeC1 "formAccent" ∧
        blLookup tokThemeC1 "brandAccentHover" = blLookup tokThemeC1 "brandAccent" ∧
        blLookup tokThemeC1 "brandAccentActive" = blLookup tokThemeC1 "brandAccent") :=
  ⟨rfl, rfl, c1_variant_inheritance tokThemeC1 70 70 rfl rfl⟩

end Braid
